import Mathlib

/-!
Verification development for the s3-edgedelta-streamer ingestion pipeline.

This file shallowly embeds the Go sources of the repository
(internal/formats, internal/scanner, internal/state, internal/output,
internal/worker, internal/config) as executable Lean definitions and proves
properties of the embedded code.

Conventions used throughout:
- Go int64 / int values are modelled as Int.  The quantities involved
  (timestamps, counters, sizes) stay far below 2^63 in every statement
  proved here, and no statement depends on wrap-around, so two-complement
  wrapping is not modelled.
- Go byte slices holding log lines are modelled as String.  A nil slice
  returned by ProcessContent is modelled by a dedicated constructor.
- Go time.Duration parameters are modelled in whole seconds, matching how
  the code only ever observes them through Unix()-second arithmetic.
- Functions of the Go standard library used by the code (strings, strconv,
  path/filepath, encoding/json, net/url, time) are modelled explicitly
  below to the extent the embedded code exercises them; each model carries
  a comment stating its scope.
-/

namespace Streamer

/-- Model of Go unicode.IsSpace restricted to the whitespace runes that can
occur in the byte-oriented inputs of this pipeline (ASCII whitespace plus
U+0085 and U+00A0, the Latin-1 space runes Go also treats as space). -/
def goIsSpace (c : Char) : Bool :=
  c = ' ' || c = '\t' || c = '\n' || c = Char.ofNat 11 || c = Char.ofNat 12 ||
  c = '\r' || c = Char.ofNat 133 || c = Char.ofNat 160

/-- Model of Go strings.TrimSpace: drop leading and trailing whitespace. -/
def goTrimSpace (s : String) : String :=
  ⟨((s.data.dropWhile goIsSpace).reverse.dropWhile goIsSpace).reverse⟩

/-- Character-list starts-with test. -/
def listStartsWith : List Char → List Char → Bool
  | _, [] => true
  | [], _ :: _ => false
  | a :: as, b :: bs => a = b && listStartsWith as bs

/-- Model of Go strings.HasPrefix. -/
def goHasPrefixStr (s pre : String) : Bool :=
  listStartsWith s.data pre.data

/-- Model of Go strings.HasSuffix. -/
def goHasSuffixStr (s suf : String) : Bool :=
  listStartsWith s.data.reverse suf.data.reverse

/-- Model of Go strings.TrimSuffix: drop the suffix when present. -/
def goTrimSuffixStr (s suf : String) : String :=
  if goHasSuffixStr s suf then ⟨s.data.take (s.data.length - suf.data.length)⟩ else s

/-- Splitting a character list at a separator, keeping empty fields. -/
def splitOnCharList (sep : Char) (l : List Char) : List (List Char) :=
  l.foldr
    (fun c acc =>
      if c = sep then [] :: acc
      else
        match acc with
        | [] => [[c]]
        | h :: t => (c :: h) :: t)
    [[]]

/-- Model of Go strings.Split with a one-character separator: splits at
every occurrence, keeping empty fields (Split of the empty string yields
one empty field, as in Go). -/
def goSplitChar (s : String) (sep : Char) : List String :=
  (splitOnCharList sep s.data).map (fun l => ⟨l⟩)

/-- Decimal digit recognizer. -/
def isDigitChar (c : Char) : Bool :=
  '0' ≤ c && c ≤ '9'

/-- Digit list to natural number, most significant first. -/
def digitsToNat (l : List Char) : Nat :=
  l.foldl (fun acc c => acc * 10 + (c.toNat - '0'.toNat)) 0

/-- Model of Go strconv.ParseInt(s, 10, 64) (and Atoi): an optional sign
followed by at least one decimal digit, value within the int64 range;
any other input is an error (none). -/
def goParseInt (s : String) : Option Int :=
  let core : List Char → Option Int := fun ds =>
    if ds = [] then none
    else if ds.all isDigitChar then some (Int.ofNat (digitsToNat ds))
    else none
  let signed : Option Int :=
    match s.data with
    | '+' :: rest => core rest
    | '-' :: rest => (core rest).map (fun v => -v)
    | rest => core rest
  match signed with
  | some v => if -(2 ^ 63) ≤ v ∧ v < 2 ^ 63 then some v else none
  | none => none

/-- Model of Go strings.Contains for the substring test. -/
def goContains (s sub : String) : Bool :=
  (List.range (s.data.length + 1)).any
    (fun i => (s.data.drop i).take sub.data.length == sub.data)

/-- Model of Go strings.Contains for a single rune, as used with a comma. -/
def goContainsChar (s : String) (c : Char) : Bool :=
  s.data.any (· = c)

/-- ASCII lowering of one character (Go strings.ToLower restricted to the
ASCII inputs that occur in header keywords and config enums here). -/
def goLowerChar (c : Char) : Char :=
  if 'A' ≤ c && c ≤ 'Z' then Char.ofNat (c.toNat + 32) else c

/-- Model of Go strings.ToLower for ASCII inputs. -/
def goToLower (s : String) : String :=
  ⟨s.data.map goLowerChar⟩

/-- Star expansion for the glob matcher: try the continuation on every
suffix of the name reachable without crossing a path separator. -/
def globStarAux (k : List Char → Bool) : List Char → Bool
  | [] => k []
  | c :: s => k (c :: s) || (c ≠ '/' && globStarAux k s)

/-- Model of Go path/filepath.Match for patterns built from literal
characters, the star wildcard and the question mark (the character-class
syntax of Match is not used by any pattern in this repository and is not
modelled; star and question mark never match the path separator). -/
def globMatch : List Char → List Char → Bool
  | [], s => s.isEmpty
  | '*' :: p, s => globStarAux (globMatch p) s
  | '?' :: p, c :: s => c ≠ '/' && globMatch p s
  | '?' :: _, [] => false
  | c :: p, d :: s => c = d && globMatch p s
  | _ :: _, [] => false

/-- Model of Go path/filepath.Match on strings. -/
def goMatchGlob (patt name : String) : Bool :=
  globMatch patt.data name.data

/-- Model of Go path.Base restricted to keys without a trailing slash:
the substring after the last slash (the full key is its own base when it
has no slash), matching how S3 object keys are shaped here. -/
def goPathBase (s : String) : String :=
  ⟨(s.data.reverse.takeWhile (· ≠ '/')).reverse⟩

/-! ## internal/formats: line processing (zscaler.go, cisco_umbrella.go, generic.go)

Result of LogFormat.ProcessContent: Go returns (nil, err) for an error,
(nil, nil) for a dropped line and (line, nil) for a forwarded line. -/

inductive LineResult where
  | err : LineResult
  | dropped : LineResult
  | keep : String → LineResult
deriving DecidableEq, Repr

/-- ZscalerFormat.ParseTimestamp (zscaler.go): trim a .gz suffix, split the
whole argument on underscores, parse the first field as a decimal int64. -/
def zscalerParseTimestamp (filename : String) : Option Int :=
  let fn := goTrimSuffixStr filename ".gz"
  let parts := goSplitChar fn '_'
  match parts with
  | [] => none
  | p0 :: _ => goParseInt p0

/-- ZscalerFormat.ProcessContent (zscaler.go).  The jsonValid parameter
models success of encoding/json.Unmarshal on the line (a Go standard
library call); the embedding is parametric in it. -/
def zscalerProcessContent (jsonValid : String → Bool) (line : String)
    (_isFirstLine : Bool) : LineResult :=
  if line.length = 0 then .dropped
  else
    let trimmed := goTrimSpace line
    if goHasPrefixStr trimmed "\x7b" && goHasSuffixStr trimmed "\x7d" then
      if jsonValid line then .keep line else .err
    else .keep line

/-- ZscalerFormat.DetectFromFilename (zscaler.go). -/
def zscalerDetectFromFilename (filename : String) : Bool :=
  let fn := goTrimSuffixStr filename ".gz"
  let parts := goSplitChar fn '_'
  if parts.length < 4 then false
  else (goParseInt (parts.headD "")).isSome

/-- Loop body of ZscalerFormat.DetectFromContent: inspect the first
non-empty trimmed line only. -/
def zscalerContentLoop (jsonValid : String → Bool) : List String → Bool
  | [] => false
  | l :: ls =>
    let t := goTrimSpace l
    if t = "" then zscalerContentLoop jsonValid ls
    else if goHasPrefixStr t "\x7b" && goHasSuffixStr t "\x7d" then jsonValid t
    else false

/-- ZscalerFormat.DetectFromContent (zscaler.go). -/
def zscalerDetectFromContent (jsonValid : String → Bool) (sample : String) : Bool :=
  if sample.length = 0 then false
  else zscalerContentLoop jsonValid (goSplitChar sample '\n')

/-- CiscoUmbrellaFormat.ProcessContent (cisco_umbrella.go): skip the header
row, skip whitespace-only lines, pass everything else unchanged. -/
def ciscoProcessContent (line : String) (isFirstLine : Bool) : LineResult :=
  if isFirstLine then .dropped
  else if (goTrimSpace line).length = 0 then .dropped
  else .keep line

/-- CiscoUmbrellaFormat.DetectFromFilename (cisco_umbrella.go). -/
def ciscoDetectFromFilename (filename : String) : Bool :=
  if ¬ (goHasSuffixStr filename ".csv" || goHasSuffixStr filename ".csv.gz") then false
  else
    let base :=
      if goHasSuffixStr filename ".csv.gz" then goTrimSuffixStr filename ".csv.gz"
      else goTrimSuffixStr filename ".csv"
    let parts := goSplitChar base '-'
    if parts.length < 6 then false
    else ((parts.take 5).all (fun p => (goParseInt p).isSome))

/-- CiscoUmbrellaFormat.DetectFromContent (cisco_umbrella.go). -/
def ciscoDetectFromContent (sample : String) : Bool :=
  if sample.length = 0 then false
  else
    let lines := goSplitChar sample '\n'
    if lines.length < 2 then false
    else
      let header := goTrimSpace (lines.headD "")
      if ¬ goContainsChar header ',' || goHasPrefixStr header "\x7b" ||
          goHasPrefixStr header "[" then false
      else
        let headerLower := goToLower header
        let ciscoKeywords := ["timestamp", "domain", "action", "identity", "categories"]
        let keywordHits := (ciscoKeywords.filter (fun k => goContains headerLower k)).length
        let dataLine := goTrimSpace ((lines.drop 1).headD "")
        if ¬ goContainsChar dataLine ',' || goHasPrefixStr dataLine "\x7b" ||
            goHasPrefixStr dataLine "[" then false
        else decide (2 ≤ keywordHits)

/-- FormatConfig (config.go): the per-format configuration record. -/
structure FormatConfig where
  name : String
  filenamePattern : String
  timestampRegex : String
  timestampFormat : String
  contentType : String
  skipHeaderLines : Int
  fieldSeparator : String
deriving DecidableEq, Repr

/-- NewGenericFormat (generic.go) defaulting applied at construction. -/
def genericDefaults (cfg : FormatConfig) : FormatConfig :=
  { cfg with
    contentType := if cfg.contentType = "" then "text/plain" else cfg.contentType,
    fieldSeparator := if cfg.fieldSeparator = "" then "," else cfg.fieldSeparator }

/-- GenericFormat.ProcessContent (generic.go): skip the first line when the
config declares header lines, skip whitespace-only lines, pass the rest. -/
def genericProcessContent (cfg : FormatConfig) (line : String)
    (isFirstLine : Bool) : LineResult :=
  if isFirstLine && 0 < cfg.skipHeaderLines then .dropped
  else if goTrimSpace line = "" then .dropped
  else .keep line

/-- GenericFormat.DetectFromFilename (generic.go). -/
def genericDetectFromFilename (cfg : FormatConfig) (filename : String) : Bool :=
  goMatchGlob cfg.filenamePattern filename

/-- Loop body of GenericFormat.DetectFromContent for the JSON content
types: inspect the first non-empty trimmed line; a sample of only blank
lines falls through the loop and the function returns true. -/
def genericJsonLoop : List String → Bool
  | [] => true
  | l :: ls =>
    let t := goTrimSpace l
    if t = "" then genericJsonLoop ls
    else goHasPrefixStr t "\x7b" && goHasSuffixStr t "\x7d"

/-- GenericFormat.DetectFromContent (generic.go). -/
def genericDetectFromContent (cfg : FormatConfig) (sample : String) : Bool :=
  if sample.length = 0 then false
  else if cfg.contentType = "application/x-ndjson" || cfg.contentType = "application/json" then
    genericJsonLoop (goSplitChar sample '\n')
  else if cfg.contentType = "text/plain" then
    decide (0 < (goTrimSpace sample).length)
  else true

/-! ## internal/formats: the LogFormat interface and the Registry (format.go)

A LogFormat value packages the behavioral interface the registry consumes
for detection (Name, GetContentType, DetectFromFilename, DetectFromContent).
ParseTimestamp and ProcessContent are modelled by the standalone functions
above and are threaded into the scanner and worker models explicitly. -/

structure LogFormat where
  name : String
  contentType : String
  detectFromFilename : String → Bool
  detectFromContent : String → Bool

/-- The built-in zscaler descriptor (zscaler.go), parametric in the model
of encoding/json.Unmarshal success. -/
def zscalerFormat (jsonValid : String → Bool) : LogFormat :=
  { name := "zscaler",
    contentType := "application/x-ndjson",
    detectFromFilename := zscalerDetectFromFilename,
    detectFromContent := zscalerDetectFromContent jsonValid }

/-- The built-in cisco_umbrella descriptor (cisco_umbrella.go). -/
def ciscoUmbrellaFormat : LogFormat :=
  { name := "cisco_umbrella",
    contentType := "text/plain",
    detectFromFilename := ciscoDetectFromFilename,
    detectFromContent := ciscoDetectFromContent }

/-- NewGenericFormat (generic.go) as a descriptor value (defaults applied
at construction). -/
def genericFormat (cfg : FormatConfig) : LogFormat :=
  let c := genericDefaults cfg
  { name := c.name,
    contentType := c.contentType,
    detectFromFilename := genericDetectFromFilename c,
    detectFromContent := genericDetectFromContent c }

/-- The registry field formats is a Go map from name to LogFormat; it is
modelled as an association list with unique keys (Register overwrites the
entry of the same name, format.go). -/
def Registry := List (String × LogFormat)

/-- Registry.Register (format.go): map assignment by format name. -/
def registryRegister (r : Registry) (f : LogFormat) : Registry :=
  (List.filter (fun e => e.1 ≠ f.name) r) ++ [(f.name, f)]

/-- Registry.GetFormat (format.go): map lookup, none for an unknown name. -/
def registryGetFormat (r : Registry) (name : String) : Option LogFormat :=
  (List.find? (fun e => e.1 = name) r).map (fun e => e.2)

/-- NewRegistryFromConfig (format.go): register the custom formats first,
then the two built-ins (which therefore overwrite a custom format that
reuses a built-in name). -/
def newRegistryFromConfig (jsonValid : String → Bool)
    (formatConfigs : List FormatConfig) : Registry :=
  let r := formatConfigs.foldl (fun acc cfg => registryRegister acc (genericFormat cfg)) []
  registryRegister (registryRegister r (zscalerFormat jsonValid)) ciscoUmbrellaFormat

/-- NewRegistry (format.go): only the two built-ins. -/
def newRegistry (jsonValid : String → Bool) : Registry :=
  newRegistryFromConfig jsonValid []

/-- The multiset of descriptors a Go range-over-map statement visits. -/
def registryValues (r : Registry) : List LogFormat :=
  r.map (fun e => e.2)

/-- A list is a possible iteration order of the registry map.  Go does not
specify (and actively randomizes) map iteration order, so the embedding of
Registry.DetectFormat quantifies over all enumerations of the map. -/
def IsIterationOrder (order : List LogFormat) (r : Registry) : Prop :=
  order.Perm (registryValues r)

/-- Registry.DetectFormat (format.go) under one concrete map iteration
order: first filename-predicate match, else first content-predicate match,
else the entry registered under the name zscaler. -/
def detectFormat (r : Registry) (order : List LogFormat)
    (filename contentSample : String) : Option LogFormat :=
  match order.find? (fun f => f.detectFromFilename filename) with
  | some f => some f
  | none =>
    match order.find? (fun f => f.detectFromContent contentSample) with
    | some f => some f
    | none => registryGetFormat r "zscaler"

/-! ## internal/output/http_sender.go: batch aggregation and dispatch -/

/-- Batch (http_sender.go): accumulated lines and the running size, each
line contributing len(line)+1 for its newline terminator. -/
structure GoBatch where
  lines : List String
  size : Nat
deriving DecidableEq, Repr

/-- The batcher configuration values the aggregator reads (validated
positive by config.Validate, hence Nat). -/
structure BatcherCfg where
  batchLines : Nat
  batchBytes : Nat
deriving DecidableEq, Repr

/-- State of the batcher goroutine: the mutable current batch plus the
batches dispatched to the batch channel so far (in dispatch order). -/
structure BatcherState where
  cur : GoBatch
  dispatched : List GoBatch
deriving DecidableEq, Repr

/-- The flushBatch closure (http_sender.go): dispatch the current batch
when it is non-empty and start a fresh one; do nothing on an empty batch.
The shutdown path in which the send on the batch channel is abandoned
dispatches nothing, so it is subsumed by the no-op case for the purposes
of statements about dispatched batches. -/
def flushBatch (st : BatcherState) : BatcherState :=
  if st.cur.lines.length > 0 then
    { cur := { lines := [], size := 0 }, dispatched := st.dispatched ++ [st.cur] }
  else st

/-- Events the batcher select loop reacts to: an incoming line, the flush
ticker, and closure of the line channel (the buffer-monitor tick does not
touch the batch and is omitted). -/
inductive BatcherEvent where
  | line : String → BatcherEvent
  | tick : BatcherEvent
  | closed : BatcherEvent
deriving DecidableEq, Repr

/-- One iteration of the batcher select loop (http_sender.go): a line is
appended to the current batch first and the batch is flushed when either
bound has been reached; ticker and closure flush whatever is pending. -/
def batcherStep (cfg : BatcherCfg) (st : BatcherState) (e : BatcherEvent) : BatcherState :=
  match e with
  | .line l =>
    let cur := { lines := st.cur.lines ++ [l], size := st.cur.size + l.length + 1 }
    let st := { st with cur := cur }
    if cfg.batchLines ≤ cur.lines.length ∨ cfg.batchBytes ≤ cur.size then flushBatch st
    else st
  | .tick => flushBatch st
  | .closed => flushBatch st

/-- The batcher run over a whole event sequence, from the initial empty
batch. -/
def batcherRun (cfg : BatcherCfg) (events : List BatcherEvent) : BatcherState :=
  events.foldl (batcherStep cfg) { cur := { lines := [], size := 0 }, dispatched := [] }

/-- The HTTP request a sender worker issues (http_sender.go sendBatch):
lines joined with trailing newlines, POST, and a Content-Type header that
the code sets to the literal application/x-ndjson. -/
structure HttpRequest where
  method : String
  url : String
  contentType : String
  body : String
deriving DecidableEq, Repr

/-- HTTPSender.sendBatch (http_sender.go), request construction part. -/
def sendBatchRequest (batch : GoBatch) (endpoint : String) : HttpRequest :=
  { method := "POST",
    url := endpoint,
    contentType := "application/x-ndjson",
    body := String.join (batch.lines.map (fun l => l ++ "\n")) }

/-- HTTPSender.sender (http_sender.go): worker i posts every batch to
endpoints[i mod len(endpoints)]. -/
def senderEndpoint (endpoints : List String) (workerId : Nat) : String :=
  endpoints.getD (workerId % endpoints.length) ""

/-! ## internal/state: the watermark record and its two backends -/

/-- State (state.go): the persisted progress record. -/
structure PState where
  lastProcessedTimestamp : Int
  lastProcessedFile : String
  totalFilesProcessed : Int
  totalBytesProcessed : Int
  lastUpdated : Int
deriving DecidableEq, Repr

/-- Manager.UpdateProgress (state.go): raise the timestamp only when the
new one is strictly larger, overwrite the file key unconditionally, bump
both counters, stamp the wall clock (passed in as now). -/
def updateProgress (s : PState) (timestamp : Int) (filePath : String)
    (bytesProcessed : Int) (now : Int) : PState :=
  { lastProcessedTimestamp :=
      if timestamp > s.lastProcessedTimestamp then timestamp
      else s.lastProcessedTimestamp,
    lastProcessedFile := filePath,
    totalFilesProcessed := s.totalFilesProcessed + 1,
    totalBytesProcessed := s.totalBytesProcessed + bytesProcessed,
    lastUpdated := now }

/-- RedisStateManager.UpdateProgress (redis_state.go): the Redis backend
runs the identical update under its own mutex. -/
def redisUpdateProgress (s : PState) (timestamp : Int) (filePath : String)
    (bytesProcessed : Int) (now : Int) : PState :=
  { lastProcessedTimestamp :=
      if timestamp > s.lastProcessedTimestamp then timestamp
      else s.lastProcessedTimestamp,
    lastProcessedFile := filePath,
    totalFilesProcessed := s.totalFilesProcessed + 1,
    totalBytesProcessed := s.totalBytesProcessed + bytesProcessed,
    lastUpdated := now }

/-- One UpdateProgress call as a record, for statements about arbitrary
call sequences. -/
structure ProgressCall where
  timestamp : Int
  filePath : String
  bytesProcessed : Int
  now : Int
deriving DecidableEq, Repr

/-- A sequence of UpdateProgress calls applied in order. -/
def applyProgressCalls (s : PState) (calls : List ProgressCall) : PState :=
  calls.foldl (fun acc c => updateProgress acc c.timestamp c.filePath c.bytesProcessed c.now) s

/-- json.MarshalIndent of the State struct (state.go Save): the JSON text
in struct field order.  File keys appearing here contain no characters
requiring JSON escaping, so escaping is not modelled. -/
def serializeState (s : PState) : String :=
  "\x7b\n  \"last_processed_timestamp\": " ++ toString s.lastProcessedTimestamp ++
  ",\n  \"last_processed_file\": \"" ++ s.lastProcessedFile ++
  "\",\n  \"total_files_processed\": " ++ toString s.totalFilesProcessed ++
  ",\n  \"total_bytes_processed\": " ++ toString s.totalBytesProcessed ++
  ",\n  \"last_updated\": " ++ toString s.lastUpdated ++ "\n\x7d"

/-- A flat filesystem: an association from path to file content. -/
structure Fs where
  files : List (String × String)
deriving DecidableEq, Repr

/-- os.WriteFile: create or replace the file at the path. -/
def fsWrite (fs : Fs) (path content : String) : Fs :=
  { files := (path, content) :: fs.files.filter (fun e => e.1 ≠ path) }

/-- Read the content at a path, none when absent. -/
def fsRead (fs : Fs) (path : String) : Option String :=
  (fs.files.find? (fun e => e.1 = path)).map (fun e => e.2)

/-- os.Rename: atomically move the file at src over dst. -/
def fsRename (fs : Fs) (src dst : String) : Fs :=
  match fsRead fs src with
  | none => fs
  | some content =>
    { files := (dst, content) ::
        (fs.files.filter (fun e => e.1 ≠ src ∧ e.1 ≠ dst)) }

/-- The in-memory fields of the local-file Manager that Save touches. -/
structure MState where
  filePath : String
  state : PState
  dirty : Bool
deriving DecidableEq, Repr

/-- The fallible external steps of Manager.Save, as an oracle: whether
json.MarshalIndent, os.WriteFile and os.Rename succeed on this call. -/
structure SaveEnv where
  marshalOk : Bool
  writeOk : Bool
  renameOk : Bool
deriving DecidableEq, Repr

/-- Manager.Save (state.go): no-op returning nil when clean; otherwise
serialize, write path.tmp, rename it over path, and clear the dirty flag
only after the rename succeeded.  A failed WriteFile leaves no observable
replacement of either path in this model (partial temp content is never
read by anything). -/
def managerSave (env : SaveEnv) (m : MState) (fs : Fs) : MState × Fs × Except Unit Unit :=
  if ¬ m.dirty then (m, fs, .ok ())
  else if ¬ env.marshalOk then (m, fs, .error ())
  else
    let data := serializeState m.state
    let tmpPath := m.filePath ++ ".tmp"
    if ¬ env.writeOk then (m, fs, .error ())
    else
      let fs1 := fsWrite fs tmpPath data
      if ¬ env.renameOk then (m, fs1, .error ())
      else ({ m with dirty := false }, fsRename fs1 tmpPath m.filePath, .ok ())

/-- The in-memory fields of the RedisStateManager that Save touches. -/
structure RState where
  keyPfx : String
  state : PState
  dirty : Bool
deriving DecidableEq, Repr

/-- json.Marshal of the State struct (redis_state.go Save). -/
def serializeStateCompact (s : PState) : String :=
  "\x7b\"last_processed_timestamp\":" ++ toString s.lastProcessedTimestamp ++
  ",\"last_processed_file\":\"" ++ s.lastProcessedFile ++
  "\",\"total_files_processed\":" ++ toString s.totalFilesProcessed ++
  ",\"total_bytes_processed\":" ++ toString s.totalBytesProcessed ++
  ",\"last_updated\":" ++ toString s.lastUpdated ++ "\x7d"

/-- RedisStateManager.Save (redis_state.go): no-op when clean; otherwise a
single SET of the serialized state at key prefix:state; the dirty flag is
cleared only when the SET succeeded.  The marshalOk and setOk flags model
the fallible json.Marshal and Redis SET calls. -/
def redisSave (marshalOk setOk : Bool) (m : RState) (kv : List (String × String)) :
    RState × List (String × String) × Except Unit Unit :=
  if ¬ m.dirty then (m, kv, .ok ())
  else if ¬ marshalOk then (m, kv, .error ())
  else
    let key := m.keyPfx ++ ":state"
    if ¬ setOk then (m, kv, .error ())
    else ({ m with dirty := false },
          (key, serializeStateCompact m.state) :: kv.filter (fun e => e.1 ≠ key),
          .ok ())

/-! ## internal/scanner/scanner.go: time window, day partitions, listing -/

/-- The proleptic-Gregorian civil date (year, month, day) of a day count
relative to 1970-01-01, the standard era-based conversion; this is the
function time.Unix(ts,0).UTC() exposes through Year, Month and Day. -/
def civilFromDays (z0 : Int) : Int × Int × Int :=
  let z := z0 + 719468
  let era := Int.fdiv z 146097
  let doe := z - era * 146097
  let yoe := Int.fdiv (doe - Int.fdiv doe 1460 + Int.fdiv doe 36524 - Int.fdiv doe 146096) 365
  let y := yoe + era * 400
  let doy := doe - (365 * yoe + Int.fdiv yoe 4 - Int.fdiv yoe 100)
  let mp := Int.fdiv (5 * doy + 2) 153
  let d := doy - Int.fdiv (153 * mp + 2) 5 + 1
  let m := mp + (if mp < 10 then 3 else -9)
  (if m ≤ 2 then y + 1 else y, m, d)

/-- The Hive-style day-partition string for one epoch day under the
configured key space: pfx ++ year=Y/month=M/day=D/ (scanner.go
generatePrefixes, loop body). -/
def dayPartition (pfx : String) (day : Int) : String :=
  match civilFromDays day with
  | (y, m, d) =>
    pfx ++ "year=" ++ toString y ++ "/month=" ++ toString m ++
      "/day=" ++ toString d ++ "/"

/-- Scanner.generatePrefixes (scanner.go): one partition per UTC day from
the day of fromTimestamp to the day of toTimestamp inclusive (the Go loop
steps a midnight cursor by 24h up to 23:59:59 of the last day, which is
exactly day-number iteration). -/
def generatePrefixes (pfx : String) (fromTimestamp toTimestamp : Int) : List String :=
  let fromDay := Int.fdiv fromTimestamp 86400
  let toDay := Int.fdiv toTimestamp 86400
  if toDay < fromDay then []
  else (List.range (toDay - fromDay + 1).toNat).map (fun i => dayPartition pfx (fromDay + i))

/-- One object of a ListObjectsV2 page: key and reported size. -/
structure S3Object where
  key : String
  size : Int
deriving DecidableEq, Repr

/-- FileJob (scanner.go). -/
structure FileJob where
  s3Key : String
  timestamp : Int
  size : Int
deriving DecidableEq, Repr

/-- The object-store LIST contract the scanner consumes: all objects under
a partition, optionally starting lexicographically after a key (pagination
is flattened; a failing page aborts the scan and is outside completed-scan
statements). -/
def Listing := String → Option String → List S3Object

/-- Scanner.listFiles (scanner.go): set StartAfter when the last processed
file lies inside this partition, then keep exactly the objects whose
filename timestamp parses and falls inside the window. -/
def listFiles (parseTs : String → Option Int) (listing : Listing)
    (pfx : String) (lastProcessedFile : String)
    (fromTimestamp endTimestamp : Int) : List FileJob :=
  let startAfter :=
    if lastProcessedFile ≠ "" ∧ goHasPrefixStr lastProcessedFile pfx then
      some lastProcessedFile
    else none
  (listing pfx startAfter).filterMap (fun obj =>
    match parseTs obj.key with
    | none => none
    | some ts =>
      if ts < fromTimestamp ∨ endTimestamp < ts then none
      else some { s3Key := obj.key, timestamp := ts, size := obj.size })

/-- Scanner.Scan (scanner.go): compute the window once (upper bound now
minus the delay window; lower bound the watermark, or one minute below the
upper bound on a zero watermark), then list every covered day partition in
order.  parseTs is the configured descriptor ParseTimestamp, applied to
the full object key exactly as the code does. -/
def scan (parseTs : String → Option Int) (listing : Listing) (pfx : String)
    (delayWindowSec now fromTimestamp0 : Int) (lastProcessedFile : String) :
    List FileJob :=
  let endTimestamp := now - delayWindowSec
  let fromTimestamp := if fromTimestamp0 = 0 then endTimestamp - 60 else fromTimestamp0
  (generatePrefixes pfx fromTimestamp endTimestamp).flatMap
    (fun p => listFiles parseTs listing p lastProcessedFile fromTimestamp endTimestamp)

/-! ## internal/worker/http_pool.go: the download worker pool -/

/-- The external effects one processFile call observes, as an oracle: the
S3 GetObject outcome, the gzip magic check, and for a readable body the
decompressed lines plus whether bufio hit a scan error (oversize line or
truncated stream) at the end. -/
inductive FetchOutcome where
  | fetchErr : FetchOutcome
  | gzipErr : FetchOutcome
  | body : List String → Bool → FetchOutcome

/-- The line loop of HTTPPool.processFile: apply ProcessContent with the
first-line flag, abort on a processing error, skip dropped lines, forward
the rest in order while accumulating the forwarded byte count. -/
def forwardLines (pc : String → Bool → LineResult) :
    List String → Bool → Option (List String × Nat)
  | [], _ => some ([], 0)
  | l :: ls, isFirst =>
    match pc l isFirst with
    | .err => none
    | .dropped => forwardLines pc ls false
    | .keep out =>
      (forwardLines pc ls false).map (fun r => (out :: r.1, out.length + r.2))

/-- HTTPPool.processFile (http_pool.go): fails on download error, gzip
error, a per-line processing error or a scanner error; succeeds with the
forwarded lines and byte count otherwise.  (On a scan error the lines read
before the error were already forwarded; only success is modelled by the
some case, which is what the watermark discipline observes.) -/
def processFile (pc : String → Bool → LineResult) (outcome : FetchOutcome) :
    Option (List String × Nat) :=
  match outcome with
  | .fetchErr => none
  | .gzipErr => none
  | .body lines scanErr =>
    match forwardLines pc lines true with
    | none => none
    | some r => if scanErr then none else some r

/-- The pool-level state a job completion touches: the shared watermark
plus the two counters of HTTPPool.worker. -/
structure PoolState where
  wm : PState
  filesProcessed : Int
  errors : Int
deriving DecidableEq, Repr

/-- One job with its fetch oracle. -/
structure PoolJob where
  job : FileJob
  outcome : FetchOutcome

/-- Modelled from the spec: the watermark write after a successful job
lives in the main loop of cmd/streamer/main_http.go, which is not present
under src/ (HTTPPool.worker notes that state updates happen in the main
loop); section 4.3 step 5 of the spec fixes it as: on success, update the
Watermark with the job timestamp, key, and byte count. -/
def mainLoopOnSuccess (wm : PState) (j : FileJob) (now : Int) : PState :=
  updateProgress wm j.timestamp j.s3Key j.size now

/-- One iteration of HTTPPool.worker for one job (http_pool.go): a failed
processFile increments the per-file error counter and leaves the watermark
alone; a successful one increments filesProcessed, after which the main
loop advances the watermark. -/
def poolStep (pc : String → Bool → LineResult) (now : Int)
    (st : PoolState) (j : PoolJob) : PoolState :=
  match processFile pc j.outcome with
  | none => { st with errors := st.errors + 1 }
  | some _ =>
    { st with
      filesProcessed := st.filesProcessed + 1,
      wm := mainLoopOnSuccess st.wm j.job now }

/-- The worker loop over a queue of jobs (order within one worker). -/
def runPool (pc : String → Bool → LineResult) (now : Int)
    (st : PoolState) (jobs : List PoolJob) : PoolState :=
  jobs.foldl (poolStep pc now) st

/-! ## internal/config/config.go: Config.Validate

Only the fields Validate reads or writes are modelled; durations are in
nanoseconds as in Go time.Duration, though Validate only compares them
with zero. -/

/-- RedisConfig (config.go). -/
structure GoRedisConfig where
  enabled : Bool
  host : String
  port : Int
  password : String
  database : Int
  keyPfx : String
deriving DecidableEq, Repr

/-- The Config fields Validate touches (config.go), flattened. -/
structure GoConfig where
  s3Bucket : String
  s3Region : String
  httpEndpoints : List String
  httpBatchLines : Int
  httpBatchBytes : Int
  httpFlushInterval : Int
  httpWorkers : Int
  httpBufferSize : Int
  procWorkerCount : Int
  procScanInterval : Int
  procDelayWindow : Int
  procLogFormats : List FormatConfig
  procDefaultFormat : String
  procLogFormat : String
  redis : GoRedisConfig
  otlpEnabled : Bool
  otlpEndpoint : String
  otlpServiceName : String
  otlpExportInterval : Int
  loggingLevel : String
  loggingFormat : String
deriving DecidableEq, Repr

/-- The endpoint URL acceptance of Validate: url.Parse succeeds and the
scheme is http or https.  url.Parse is Go standard library; for the
endpoint shapes configured here its scheme test reduces to the two
admissible scheme separators. -/
def endpointSchemeOk (e : String) : Bool :=
  goHasPrefixStr e "http://" || goHasPrefixStr e "https://"

/-- The per-format default filling of the Validate loop: an empty
timestamp_format becomes unix and an empty content_type becomes
text/plain, written back into the slice. -/
def validateNormalizeFormat (f : FormatConfig) : FormatConfig :=
  { f with
    timestampFormat := if f.timestampFormat = "" then "unix" else f.timestampFormat,
    contentType := if f.contentType = "" then "text/plain" else f.contentType }

/-- Whether Validate records no error for this configuration (error
message strings are not modelled, only their presence). -/
def validateOk (c : GoConfig) : Bool :=
  (c.s3Bucket ≠ "") && (c.s3Region ≠ "") &&
  (c.httpEndpoints ≠ []) &&
  (c.httpEndpoints.all (fun e => e ≠ "" && endpointSchemeOk e)) &&
  (0 < c.httpBatchLines) && (0 < c.httpBatchBytes) &&
  (c.httpBatchBytes ≤ 10 * 1024 * 1024) &&
  (0 < c.httpBufferSize) && (c.httpBufferSize ≤ 100000) &&
  (0 < c.httpWorkers) && (0 < c.procWorkerCount) &&
  (0 < c.httpFlushInterval) && (0 < c.procDelayWindow) && (0 < c.procScanInterval) &&
  (if c.procLogFormats ≠ [] then
    c.procLogFormats.all (fun f =>
      f.name ≠ "" && f.filenamePattern ≠ "" && f.timestampRegex ≠ "")
   else if c.procLogFormat ≠ "" then
    (c.procLogFormat = "zscaler" || c.procLogFormat = "cisco_umbrella" ||
      c.procLogFormat = "auto")
   else true) &&
  (¬ c.otlpEnabled ||
    (c.otlpEndpoint ≠ "" && c.otlpServiceName ≠ "" && 0 < c.otlpExportInterval)) &&
  (¬ c.redis.enabled || (0 ≤ c.redis.database && c.redis.database ≤ 15)) &&
  (goToLower c.loggingLevel = "debug" || goToLower c.loggingLevel = "info" ||
    goToLower c.loggingLevel = "warn" || goToLower c.loggingLevel = "error") &&
  (goToLower c.loggingFormat = "json" || goToLower c.loggingFormat = "text")

/-- The in-place mutations Validate performs on its receiver (config.go):
default filling for custom formats, for default_format across its three
branches, and for the Redis connection fields when Redis is enabled.  The
Go code performs these mutations before the final error check, so they
happen whether or not validation succeeds. -/
def validateNormalize (c : GoConfig) : GoConfig :=
  let c :=
    if c.procLogFormats ≠ [] then
      { c with
        procLogFormats := c.procLogFormats.map validateNormalizeFormat,
        procDefaultFormat :=
          if c.procDefaultFormat = "" then "auto" else c.procDefaultFormat }
    else if c.procLogFormat ≠ "" then
      { c with
        procDefaultFormat :=
          if c.procDefaultFormat = "" then c.procLogFormat else c.procDefaultFormat }
    else
      { c with procDefaultFormat := "zscaler" }
  if c.redis.enabled then
    { c with redis :=
        { c.redis with
          host := if c.redis.host = "" then "localhost" else c.redis.host,
          port := if c.redis.port = 0 then 6379 else c.redis.port,
          keyPfx := if c.redis.keyPfx = "" then "s3-streamer" else c.redis.keyPfx } }
  else c

/-- Config.Validate (config.go): the mutated configuration together with
nil-ness of the returned error. -/
def validate (c : GoConfig) : GoConfig × Bool :=
  (validateNormalize c, validateOk c)

/-! ## Concrete instances used by the claim theorems and witnesses -/

/-- Well-formedness of a dispatched batch: line count within the limit,
size within the limit plus one line allowance, never empty. -/
def BatchOk (cfg : BatcherCfg) (maxLineBytes : Nat) (b : GoBatch) : Prop :=
  b.lines.length ≤ cfg.batchLines ∧ b.size ≤ cfg.batchBytes + maxLineBytes ∧ b.lines ≠ []

/-- Invariant of the batcher loop between events: the current batch is
strictly below both flush thresholds and every batch dispatched so far is
well formed. -/
def BatcherInv (cfg : BatcherCfg) (maxLineBytes : Nat) (st : BatcherState) : Prop :=
  st.cur.lines.length < cfg.batchLines ∧ st.cur.size < cfg.batchBytes ∧
  ∀ b ∈ st.dispatched, BatchOk cfg maxLineBytes b

/-- A concrete batcher configuration for the C7 witness. -/
def c7cfg : BatcherCfg :=
  { batchLines := 1000, batchBytes := 100 }

/-- A concrete event sequence for the C7 witness: twelve-byte lines as in
the batch-by-bytes scenario of the spec, then a ticker flush. -/
def c7events : List BatcherEvent :=
  [.line "aaaaaaaaaaaa", .line "bbbbbbbbbbbb", .tick]

/-- A concrete dirty manager for the C9 witness. -/
def c9M : MState :=
  { filePath := "state.json",
    state := { lastProcessedTimestamp := 5, lastProcessedFile := "k",
               totalFilesProcessed := 1, totalBytesProcessed := 10,
               lastUpdated := 7 },
    dirty := true }

/-- An empty filesystem for the C9 witness. -/
def c9Fs : Fs :=
  { files := [] }

/-- The custom format of the C10 example configuration. -/
def c10Fmt : FormatConfig :=
  { name := "custom", filenamePattern := "*.log.gz",
    timestampRegex := "([0-9]+)", timestampFormat := "", contentType := "",
    skipHeaderLines := 0, fieldSeparator := "" }

/-- A concrete configuration for C10: fully valid, with one custom format
whose timestamp_format and content_type are left empty and an empty
default_format. -/
def c10Example : GoConfig :=
  { s3Bucket := "test-bucket", s3Region := "us-east-1",
    httpEndpoints := ["http://localhost:8080"],
    httpBatchLines := 1000, httpBatchBytes := 1048576,
    httpFlushInterval := 1000000000, httpWorkers := 10, httpBufferSize := 10000,
    procWorkerCount := 15, procScanInterval := 15000000000,
    procDelayWindow := 60000000000,
    procLogFormats := [c10Fmt],
    procDefaultFormat := "", procLogFormat := "",
    redis := { enabled := false, host := "", port := 0, password := "",
               database := 0, keyPfx := "" },
    otlpEnabled := false, otlpEndpoint := "", otlpServiceName := "",
    otlpExportInterval := 0,
    loggingLevel := "info", loggingFormat := "json" }

/-- The content processor used in the C5 witness: the cisco_umbrella
descriptor. -/
def c5pc : String → Bool → LineResult :=
  fun l first => ciscoProcessContent l first

/-- A job that succeeds in the C5 witness: header row plus one data row. -/
def c5JobOk : PoolJob :=
  { job := { s3Key := "2025-01-15-10-30-0001.csv.gz", timestamp := 1736937000, size := 42 },
    outcome := .body ["timestamp,domain,action", "A"] false }

/-- A job that fails in the C5 witness: the gzip magic check fails. -/
def c5JobBad : PoolJob :=
  { job := { s3Key := "2025-01-15-10-31-0001.csv.gz", timestamp := 1736937060, size := 7 },
    outcome := .gzipErr }

/-- The pool state the C5 witness starts from. -/
def c5St : PoolState :=
  { wm := { lastProcessedTimestamp := 0, lastProcessedFile := "",
            totalFilesProcessed := 0, totalBytesProcessed := 0, lastUpdated := 0 },
    filesProcessed := 0, errors := 0 }

/-- The listing oracle of the C6 witness: a single object with a bare
zscaler-named key. -/
def c6Listing : Listing :=
  fun _ _ => [{ key := "1760305292_56442_130_1.gz", size := 5 }]

/-- The job the C6 witness scan emits. -/
def c6Job : FileJob :=
  { s3Key := "1760305292_56442_130_1.gz", timestamp := 1760305292, size := 5 }

/-- The concrete object key of the zscaler fast-path scenario. -/
def c3Key : String :=
  "logs/year=2025/month=10/day=12/1760305292_56442_130_1.gz"

/-- The listing oracle of the zscaler fast-path scenario: the scenario
object lives in its day partition. -/
def c3Listing : Listing :=
  fun p _ =>
    if p = "logs/year=2025/month=10/day=12/" then [{ key := c3Key, size := 650000 }]
    else []

/-- The jsonValid model used in the C4 example (never consulted, since
the example works through filename predicates on an empty sample). -/
def c4JsonValid : String → Bool :=
  fun _ => false

/-- A user-defined format whose filename glob also covers Cisco Umbrella
file names. -/
def c4CustomCfg : FormatConfig :=
  { name := "custom_csv", filenamePattern := "*.csv.gz",
    timestampRegex := "([0-9]+)", timestampFormat := "unix",
    contentType := "text/plain", skipHeaderLines := 1, fieldSeparator := "," }

/-- The registry of the C4 example: one custom format plus the built-ins. -/
def c4Registry : Registry :=
  newRegistryFromConfig c4JsonValid [c4CustomCfg]

/-- One possible Go map iteration order of the example registry. -/
def c4OrderA : List LogFormat :=
  registryValues c4Registry

/-- Another possible Go map iteration order of the same registry. -/
def c4OrderB : List LogFormat :=
  (registryValues c4Registry).reverse

/-- The custom format configuration of the C8 witness (two declared
header lines). -/
def c8Cfg : FormatConfig :=
  { name := "c8_custom", filenamePattern := "*.gz",
    timestampRegex := "([0-9]+)", timestampFormat := "unix",
    contentType := "text/plain", skipHeaderLines := 2, fieldSeparator := "," }

/-! ## Helper lemmas -/

/-- One UpdateProgress call never lowers the stored timestamp. -/
theorem updateProgress_timestamp_le (s : PState) (ts : Int) (key : String)
    (bytes now : Int) :
    s.lastProcessedTimestamp ≤ (updateProgress s ts key bytes now).lastProcessedTimestamp := by
  simp only [updateProgress]
  split <;> omega

/-- Monotonicity of the stored timestamp over any call sequence. -/
theorem applyProgressCalls_mono (calls : List ProgressCall) :
    ∀ s : PState, s.lastProcessedTimestamp ≤ (applyProgressCalls s calls).lastProcessedTimestamp := by
  induction calls with
  | nil => intro s; simp [applyProgressCalls]
  | cons c cs ih =>
    intro s
    have h1 := updateProgress_timestamp_le s c.timestamp c.filePath c.bytesProcessed c.now
    have h2 := ih (updateProgress s c.timestamp c.filePath c.bytesProcessed c.now)
    simp only [applyProgressCalls, List.foldl_cons] at *
    exact le_trans h1 h2

/-! ## Claim theorems -/

/-- C1: the fan-out sender hard-codes the Content-Type header to
application/x-ndjson for every dispatched batch; in particular a pipeline
running under the cisco_umbrella descriptor (whose content type is
text/plain) does not send text/plain, contradicting the claim that the
header equals the active descriptor content type. -/
theorem C1_sendBatch_contentType_hardcoded :
    (∀ (b : GoBatch) (endpoint : String),
      (sendBatchRequest b endpoint).contentType = "application/x-ndjson") ∧
    ciscoUmbrellaFormat.contentType = "text/plain" ∧
    (sendBatchRequest { lines := ["A", "B", "C"], size := 6 }
        "http://localhost:8080").contentType ≠ ciscoUmbrellaFormat.contentType := by
  refine ⟨fun _ _ => rfl, rfl, ?_⟩
  decide

/-- C2: UpdateProgress stores the maximum of the previous timestamp and the
new one (hence the stored timestamp is monotonically non-decreasing under
any call sequence), overwrites the file key unconditionally, increments the
file counter by one and the byte counter by the processed bytes; the Redis
backend performs the identical update. -/
theorem C2_updateProgress_spec :
    ∀ (s : PState) (ts : Int) (key : String) (bytes now : Int),
      (updateProgress s ts key bytes now).lastProcessedTimestamp =
        max s.lastProcessedTimestamp ts ∧
      (updateProgress s ts key bytes now).lastProcessedFile = key ∧
      (updateProgress s ts key bytes now).totalFilesProcessed =
        s.totalFilesProcessed + 1 ∧
      (updateProgress s ts key bytes now).totalBytesProcessed =
        s.totalBytesProcessed + bytes ∧
      redisUpdateProgress s ts key bytes now = updateProgress s ts key bytes now ∧
      (∀ calls : List ProgressCall,
        s.lastProcessedTimestamp ≤ (applyProgressCalls s calls).lastProcessedTimestamp) := by
  intro s ts key bytes now
  refine ⟨?_, rfl, rfl, rfl, rfl, fun calls => applyProgressCalls_mono calls s⟩
  simp only [updateProgress]
  rcases le_or_lt ts s.lastProcessedTimestamp with h | h
  · rw [max_eq_left h]
    split <;> omega
  · rw [max_eq_right (le_of_lt h)]
    split <;> omega

/-- Normal form of the flushBatch closure. -/
theorem flushBatch_eq (st : BatcherState) :
    flushBatch st =
      if st.cur.lines = [] then st
      else { cur := { lines := [], size := 0 }, dispatched := st.dispatched ++ [st.cur] } := by
  simp only [flushBatch]
  by_cases h : st.cur.lines = []
  · rw [if_neg (by simp [h]), if_pos h]
  · rw [if_pos (by cases hl : st.cur.lines with
      | nil => exact absurd hl h
      | cons a as => simp [hl]), if_neg h]

/-- Normal form of a line event of the batcher loop. -/
theorem batcherStep_line_eq (cfg : BatcherCfg) (st : BatcherState) (l : String) :
    batcherStep cfg st (.line l) =
      if cfg.batchLines ≤ st.cur.lines.length + 1 ∨
          cfg.batchBytes ≤ st.cur.size + l.length + 1 then
        { cur := { lines := [], size := 0 },
          dispatched := st.dispatched ++
            [{ lines := st.cur.lines ++ [l], size := st.cur.size + l.length + 1 }] }
      else
        { cur := { lines := st.cur.lines ++ [l], size := st.cur.size + l.length + 1 },
          dispatched := st.dispatched } := by
  by_cases h : cfg.batchLines ≤ st.cur.lines.length + 1 ∨
      cfg.batchBytes ≤ st.cur.size + l.length + 1
  · rw [if_pos h]
    simp only [batcherStep]
    rw [if_pos (by simpa using h), flushBatch_eq]
    simp
  · rw [if_neg h]
    simp only [batcherStep]
    rw [if_neg (by simpa using h)]

/-- Normal form of a ticker or closure event of the batcher loop. -/
theorem batcherStep_flush_eq (cfg : BatcherCfg) (st : BatcherState) (e : BatcherEvent)
    (he : e = .tick ∨ e = .closed) :
    batcherStep cfg st e =
      if st.cur.lines = [] then st
      else { cur := { lines := [], size := 0 }, dispatched := st.dispatched ++ [st.cur] } := by
  rcases he with he | he <;> subst he <;>
    simp only [batcherStep] <;> exact flushBatch_eq st

/-- One batcher event preserves the batcher invariant. -/
theorem batcherStep_preserves (cfg : BatcherCfg) (maxLineBytes : Nat)
    (st : BatcherState) (e : BatcherEvent)
    (hinv : BatcherInv cfg maxLineBytes st)
    (hline : ∀ l, e = .line l → l.length ≤ maxLineBytes) :
    BatcherInv cfg maxLineBytes (batcherStep cfg st e) := by
  obtain ⟨hlen, hsize, hdisp⟩ := hinv
  cases e with
  | line l =>
    have hl := hline l rfl
    rw [batcherStep_line_eq]
    split
    · refine ⟨by show 0 < cfg.batchLines; omega, by show 0 < cfg.batchBytes; omega, ?_⟩
      intro b hb
      simp only [List.mem_append, List.mem_singleton] at hb
      rcases hb with hb | hb
      · exact hdisp b hb
      · subst hb
        refine ⟨by simp; omega, by show st.cur.size + l.length + 1 ≤ _; omega, by simp⟩
    · next hcond =>
      push_neg at hcond
      exact ⟨by simp; omega, by show st.cur.size + l.length + 1 < _; omega, hdisp⟩
  | tick =>
    rw [batcherStep_flush_eq cfg st _ (Or.inl rfl)]
    split
    · exact ⟨hlen, hsize, hdisp⟩
    · next h =>
      refine ⟨by show 0 < cfg.batchLines; omega, by show 0 < cfg.batchBytes; omega, ?_⟩
      intro b hb
      simp only [List.mem_append, List.mem_singleton] at hb
      rcases hb with hb | hb
      · exact hdisp b hb
      · subst hb
        exact ⟨le_of_lt hlen, by omega, h⟩
  | closed =>
    rw [batcherStep_flush_eq cfg st _ (Or.inr rfl)]
    split
    · exact ⟨hlen, hsize, hdisp⟩
    · next h =>
      refine ⟨by show 0 < cfg.batchLines; omega, by show 0 < cfg.batchBytes; omega, ?_⟩
      intro b hb
      simp only [List.mem_append, List.mem_singleton] at hb
      rcases hb with hb | hb
      · exact hdisp b hb
      · subst hb
        exact ⟨le_of_lt hlen, by omega, h⟩

/-- The batcher invariant holds after any whole event sequence. -/
theorem batcherRun_inv (cfg : BatcherCfg) (maxLineBytes : Nat)
    (events : List BatcherEvent)
    (h1 : 1 ≤ cfg.batchLines) (h2 : 1 ≤ cfg.batchBytes)
    (hev : ∀ l, BatcherEvent.line l ∈ events → l.length ≤ maxLineBytes) :
    BatcherInv cfg maxLineBytes (batcherRun cfg events) := by
  rw [batcherRun]
  have init : BatcherInv cfg maxLineBytes
      { cur := { lines := [], size := 0 }, dispatched := [] } :=
    ⟨by simpa using h1, by simpa using h2, by simp⟩
  clear h1 h2
  generalize hst : ({ cur := { lines := [], size := 0 }, dispatched := [] } : BatcherState) = st0
  rw [hst] at init
  clear hst
  induction events generalizing st0 with
  | nil => simpa using init
  | cons e es ih =>
    simp only [List.foldl_cons]
    refine ih (fun l hl => hev l (by simp [hl])) _
      (batcherStep_preserves cfg maxLineBytes st0 e init
        (fun l hl => hev l (by simp [hl])))

/-- C7: every batch the aggregator dispatches holds at most batch_lines
lines and at most batch_bytes plus one maximum-size line of bytes (each
line contributing its length plus one); a line that crosses either bound
is first placed into the batch and the batch holding it is then flushed;
and a timer tick on an empty current batch dispatches nothing, so no
dispatched batch is ever empty. -/
theorem C7_batcher_bounds (cfg : BatcherCfg) (maxLineBytes : Nat)
    (events : List BatcherEvent)
    (h1 : 1 ≤ cfg.batchLines) (h2 : 1 ≤ cfg.batchBytes)
    (hev : ∀ l, BatcherEvent.line l ∈ events → l.length ≤ maxLineBytes) :
    (∀ b ∈ (batcherRun cfg events).dispatched,
      b.lines.length ≤ cfg.batchLines ∧
      b.size ≤ cfg.batchBytes + maxLineBytes ∧ b.lines ≠ []) ∧
    (∀ st : BatcherState, st.cur.lines = [] → batcherStep cfg st .tick = st) ∧
    (∀ (st : BatcherState) (l : String),
      cfg.batchLines ≤ st.cur.lines.length + 1 ∨
        cfg.batchBytes ≤ st.cur.size + l.length + 1 →
      batcherStep cfg st (.line l) =
        { cur := { lines := [], size := 0 },
          dispatched := st.dispatched ++
            [{ lines := st.cur.lines ++ [l],
               size := st.cur.size + l.length + 1 }] }) := by
  refine ⟨(batcherRun_inv cfg maxLineBytes events h1 h2 hev).2.2, ?_, ?_⟩
  · intro st hempty
    rw [batcherStep_flush_eq cfg st _ (Or.inl rfl), if_pos hempty]
  · intro st l hcross
    rw [batcherStep_line_eq, if_pos hcross]

/-- Reading back a freshly written file yields the written content. -/
theorem fsRead_write_self (fs : Fs) (p c : String) :
    fsRead (fsWrite fs p c) p = some c := by
  simp [fsRead, fsWrite, List.find?]

/-- Filtering out one key leaves lookups of a different key unchanged. -/
theorem find?_filter_key (l : List (String × String)) (p q : String) (h : p ≠ q) :
    (l.filter (fun e => e.1 ≠ q)).find? (fun e => e.1 = p) =
      l.find? (fun e => e.1 = p) := by
  induction l with
  | nil => simp
  | cons a as ih =>
    rcases eq_or_ne a.1 q with hq | hq
    · rw [List.filter_cons, if_neg (by simp [hq])]
      rw [List.find?_cons_of_neg _ (by simp [hq]; exact fun hh => h hh.symm)]
      exact ih
    · rw [List.filter_cons, if_pos (by simp [hq])]
      rcases eq_or_ne a.1 p with hp | hp
      · rw [List.find?_cons_of_pos _ (by simp [hp]), List.find?_cons_of_pos _ (by simp [hp])]
      · rw [List.find?_cons_of_neg _ (by simp [hp]), List.find?_cons_of_neg _ (by simp [hp])]
        exact ih

/-- Writing one path leaves reads of a different path unchanged. -/
theorem fsRead_write_ne (fs : Fs) (p q c : String) (h : p ≠ q) :
    fsRead (fsWrite fs q c) p = fsRead fs p := by
  simp only [fsRead, fsWrite]
  rw [List.find?_cons_of_neg _ (by simp; exact fun hh => h hh.symm)]
  rw [find?_filter_key fs.files p q h]

/-- A path never equals itself extended with the temp suffix. -/
theorem ne_append_tmp (s : String) : s ≠ s ++ ".tmp" := by
  intro h
  have hl := congrArg String.length h
  rw [String.length_append] at hl
  have : (".tmp" : String).length = 4 := rfl
  omega

/-- After the rename of Save, the destination holds the temp content and
the temp path is gone. -/
theorem fsRename_read (fs : Fs) (src dst : String) (c : String)
    (hsrc : fsRead fs src = some c) (hne : dst ≠ src) :
    fsRead (fsRename fs src dst) dst = some c ∧
    fsRead (fsRename fs src dst) src = none := by
  simp only [fsRename, hsrc]
  constructor
  · simp [fsRead, List.find?]
  · simp only [fsRead]
    rw [List.find?_cons_of_neg _ (by simp; exact fun hh => hne hh)]
    rw [List.find?_eq_none.mpr]
    · rfl
    · intro e he
      simp only [List.mem_filter, decide_eq_true_eq] at he
      simp only [decide_eq_true_eq]
      exact he.2.1

/-- C9: Save is a no-op returning nil when clean; a dirty local-file Save
with successful serialization, write and rename leaves the serialized
state at the target path via a path.tmp write plus rename (the temp file
is consumed) and clears the dirty flag; any failure leaves the manager,
including its dirty flag, untouched and returns the error, so the next
flush retries; the target path always holds either its previous content or
the complete serialized state; and the Redis backend Save behaves the same
way with its single-key write. -/
theorem C9_save_spec :
    ∀ (env : SaveEnv) (m : MState) (fs : Fs),
      (¬ m.dirty → managerSave env m fs = (m, fs, .ok ())) ∧
      (m.dirty → env.marshalOk → env.writeOk → env.renameOk →
        (managerSave env m fs).1 = { m with dirty := false } ∧
        fsRead (managerSave env m fs).2.1 m.filePath = some (serializeState m.state) ∧
        fsRead (managerSave env m fs).2.1 (m.filePath ++ ".tmp") = none ∧
        (managerSave env m fs).2.2 = .ok ()) ∧
      (m.dirty → ¬ (env.marshalOk ∧ env.writeOk ∧ env.renameOk) →
        (managerSave env m fs).1 = m ∧ (managerSave env m fs).2.2 = .error ()) ∧
      (m.dirty → ((managerSave env m fs).1.dirty = false ↔
        (env.marshalOk ∧ env.writeOk ∧ env.renameOk))) ∧
      (fsRead (managerSave env m fs).2.1 m.filePath = fsRead fs m.filePath ∨
        fsRead (managerSave env m fs).2.1 m.filePath = some (serializeState m.state)) ∧
      (∀ (mOk sOk : Bool) (r : RState) (kv : List (String × String)),
        (¬ r.dirty → redisSave mOk sOk r kv = (r, kv, .ok ())) ∧
        (r.dirty → ¬ (mOk ∧ sOk) →
          (redisSave mOk sOk r kv).1 = r ∧
          (redisSave mOk sOk r kv).2.2 = .error ()) ∧
        (r.dirty → mOk → sOk →
          (redisSave mOk sOk r kv).1 = { r with dirty := false } ∧
          (redisSave mOk sOk r kv).2.1.find?
              (fun e => e.1 = r.keyPfx ++ ":state") =
            some (r.keyPfx ++ ":state", serializeStateCompact r.state))) := by
  intro env m fs
  obtain ⟨mo, wo, ro⟩ := env
  have hrd := fsRename_read (fsWrite fs (m.filePath ++ ".tmp") (serializeState m.state))
    (m.filePath ++ ".tmp") m.filePath (serializeState m.state)
    (fsRead_write_self fs (m.filePath ++ ".tmp") (serializeState m.state))
    (ne_append_tmp m.filePath)
  refine ⟨?_, ?_, ?_, ?_, ?_, ?_⟩
  · intro hd
    simp [managerSave, hd]
  · intro hd hmo hwo hro
    subst hmo; subst hwo; subst hro
    have h1 : managerSave ⟨true, true, true⟩ m fs =
        ({ m with dirty := false },
         fsRename (fsWrite fs (m.filePath ++ ".tmp") (serializeState m.state))
           (m.filePath ++ ".tmp") m.filePath, .ok ()) := by
      simp [managerSave, hd]
    rw [h1]
    exact ⟨rfl, hrd.1, hrd.2, rfl⟩
  · intro hd hfail
    cases mo <;> cases wo <;> cases ro <;> simp_all [managerSave]
  · intro hd
    cases mo <;> cases wo <;> cases ro <;> simp_all [managerSave]
  · by_cases hd : m.dirty
    · cases mo <;> cases wo <;> cases ro
      · left; simp [managerSave, hd]
      · left; simp [managerSave, hd]
      · left; simp [managerSave, hd]
      · left; simp [managerSave, hd]
      · left; simp [managerSave, hd]
      · left; simp [managerSave, hd]
      · left
        have h1 : managerSave ⟨true, true, false⟩ m fs =
            (m, fsWrite fs (m.filePath ++ ".tmp") (serializeState m.state), .error ()) := by
          simp [managerSave, hd]
        rw [h1]
        exact fsRead_write_ne fs m.filePath (m.filePath ++ ".tmp")
          (serializeState m.state) (ne_append_tmp m.filePath)
      · right
        have h1 : managerSave ⟨true, true, true⟩ m fs =
            ({ m with dirty := false },
             fsRename (fsWrite fs (m.filePath ++ ".tmp") (serializeState m.state))
               (m.filePath ++ ".tmp") m.filePath, .ok ()) := by
          simp [managerSave, hd]
        rw [h1]
        exact hrd.1
    · left; simp [managerSave, hd]
  · intro mOk sOk r kv
    refine ⟨?_, ?_, ?_⟩
    · intro hd
      simp [redisSave, hd]
    · intro hd hfail
      cases mOk <;> cases sOk <;> simp_all [redisSave]
    · intro hd hmo hso
      subst hmo; subst hso
      have h1 : redisSave true true r kv =
          ({ r with dirty := false },
           (r.keyPfx ++ ":state", serializeStateCompact r.state) ::
             kv.filter (fun e => e.1 ≠ r.keyPfx ++ ":state"), .ok ()) := by
        simp [redisSave, hd]
      rw [h1]
      exact ⟨rfl, List.find?_cons_of_pos _ (by simp)⟩

/-- Witness for C7 at a concrete configuration and event sequence. -/
theorem C7_batcher_bounds_witness :
    1 ≤ c7cfg.batchLines ∧ 1 ≤ c7cfg.batchBytes ∧
    (∀ b ∈ (batcherRun c7cfg c7events).dispatched,
      b.lines.length ≤ c7cfg.batchLines ∧
      b.size ≤ c7cfg.batchBytes + 12 ∧ b.lines ≠ []) := by
  refine ⟨by decide, by decide, (C7_batcher_bounds c7cfg 12 c7events (by decide) (by decide) ?_).1⟩
  intro l hl
  simp only [c7events, List.mem_cons, List.not_mem_nil, or_false] at hl
  rcases hl with h | h | h
  · cases h; decide
  · cases h; decide
  · cases h

/-- Witness for C9: a dirty save with all steps succeeding persists the
serialized state at the target path and clears the dirty flag. -/
theorem C9_save_spec_witness :
    c9M.dirty = true ∧
    (managerSave ⟨true, true, true⟩ c9M c9Fs).1 = { c9M with dirty := false } ∧
    fsRead (managerSave ⟨true, true, true⟩ c9M c9Fs).2.1 c9M.filePath =
      some (serializeState c9M.state) := by
  have h := (C9_save_spec ⟨true, true, true⟩ c9M c9Fs).2.1
    (by decide) (by decide) (by decide) (by decide)
  exact ⟨by decide, h.1, h.2.1⟩

/-- C10: Config.Validate normalizes its receiver in place: every custom
format gets timestamp_format unix and content_type text/plain when left
empty; an empty default_format becomes auto when custom formats are
present, the legacy log_format value when only that is set, and zscaler
when neither is given; with Redis enabled, empty host, port and key
prefix become localhost, 6379 and s3-streamer; and on a concrete fully
valid configuration Validate succeeds while changing the configuration,
so it is not a pure check. -/
theorem C10_validate_normalizes :
    (∀ c : GoConfig,
      (validate c).1.procLogFormats = c.procLogFormats.map validateNormalizeFormat ∧
      (∀ f : FormatConfig,
        (validateNormalizeFormat f).timestampFormat =
          (if f.timestampFormat = "" then "unix" else f.timestampFormat) ∧
        (validateNormalizeFormat f).contentType =
          (if f.contentType = "" then "text/plain" else f.contentType)) ∧
      (validate c).1.procDefaultFormat =
        (if c.procLogFormats ≠ [] then
          (if c.procDefaultFormat = "" then "auto" else c.procDefaultFormat)
         else if c.procLogFormat ≠ "" then
          (if c.procDefaultFormat = "" then c.procLogFormat else c.procDefaultFormat)
         else "zscaler") ∧
      (validate c).1.redis.host =
        (if c.redis.enabled ∧ c.redis.host = "" then "localhost" else c.redis.host) ∧
      (validate c).1.redis.port =
        (if c.redis.enabled ∧ c.redis.port = 0 then 6379 else c.redis.port) ∧
      (validate c).1.redis.keyPfx =
        (if c.redis.enabled ∧ c.redis.keyPfx = "" then "s3-streamer" else c.redis.keyPfx)) ∧
    (validate c10Example).2 = true ∧ (validate c10Example).1 ≠ c10Example := by
  refine ⟨?_, by decide, by decide⟩
  intro c
  by_cases hA : c.procLogFormats = [] <;>
    by_cases hB : c.procLogFormat = "" <;>
      by_cases hR : c.redis.enabled <;>
        refine ⟨?_, fun f => ⟨rfl, rfl⟩, ?_, ?_, ?_, ?_⟩ <;>
          simp [validate, validateNormalize, hA, hB, hR]

/-- C5: for every download-worker job, a successful processFile advances
the watermark with exactly that job's timestamp, key and byte count (and
bumps the processed-file counter), a failed processFile increments the
per-file error counter and leaves the watermark untouched, and the pool
keeps processing the remaining jobs the same way either way (one job's
outcome never alters the treatment of the others). -/
theorem C5_worker_watermark_discipline :
    ∀ (pc : String → Bool → LineResult) (now : Int) (st : PoolState) (j : PoolJob),
      (∀ r, processFile pc j.outcome = some r →
        poolStep pc now st j =
          { st with
            filesProcessed := st.filesProcessed + 1,
            wm := updateProgress st.wm j.job.timestamp j.job.s3Key j.job.size now }) ∧
      (processFile pc j.outcome = none →
        poolStep pc now st j = { st with errors := st.errors + 1 } ∧
        (poolStep pc now st j).wm = st.wm) ∧
      (∀ pre post : List PoolJob,
        runPool pc now st (pre ++ j :: post) =
          runPool pc now (poolStep pc now (runPool pc now st pre) j) post) := by
  intro pc now st j
  refine ⟨?_, ?_, ?_⟩
  · intro r hr
    simp [poolStep, mainLoopOnSuccess, hr]
  · intro hn
    constructor
    · simp [poolStep, hn]
    · simp [poolStep, hn]
  · intro pre post
    simp [runPool, List.foldl_append]

/-- Witness for C5 at concrete jobs: the successful job advances the
watermark with its own coordinates, the failed one only bumps errors. -/
theorem C5_worker_watermark_discipline_witness :
    processFile c5pc c5JobOk.outcome = some (["A"], 1) ∧
    poolStep c5pc 99 c5St c5JobOk =
      { c5St with
        filesProcessed := c5St.filesProcessed + 1,
        wm := updateProgress c5St.wm c5JobOk.job.timestamp c5JobOk.job.s3Key
          c5JobOk.job.size 99 } ∧
    processFile c5pc c5JobBad.outcome = none ∧
    poolStep c5pc 99 c5St c5JobBad = { c5St with errors := c5St.errors + 1 } := by
  refine ⟨by decide, ?_, by decide, ?_⟩
  · exact (C5_worker_watermark_discipline c5pc 99 c5St c5JobOk).1 (["A"], 1) (by decide)
  · exact ((C5_worker_watermark_discipline c5pc 99 c5St c5JobBad).2.1 (by decide)).1

/-- C6: for every completed scan, with upper = now - delay_window and
lower = last_timestamp (or upper - 60 on a zero watermark cold start),
every FileJob the scan emits satisfies lower ≤ ts ≤ upper; the window is
fixed by the arguments once at scan start. -/
theorem C6_scan_window_bound :
    ∀ (parseTs : String → Option Int) (listing : Listing) (pfx : String)
      (delayWindowSec now fromTimestamp0 : Int) (lastProcessedFile : String)
      (job : FileJob),
      job ∈ scan parseTs listing pfx delayWindowSec now fromTimestamp0 lastProcessedFile →
      (if fromTimestamp0 = 0 then (now - delayWindowSec) - 60 else fromTimestamp0) ≤
          job.timestamp ∧
        job.timestamp ≤ now - delayWindowSec := by
  intro parseTs listing pfx delay now from0 lastFile job hmem
  simp only [scan, List.mem_flatMap] at hmem
  obtain ⟨p, _, hp⟩ := hmem
  simp only [listFiles, List.mem_filterMap] at hp
  obtain ⟨obj, _, hobj⟩ := hp
  rcases hts : parseTs obj.key with _ | ts
  · rw [hts] at hobj
    exact absurd hobj (by simp)
  · rw [hts] at hobj
    dsimp only at hobj
    by_cases hrange :
        ts < (if from0 = 0 then (now - delay) - 60 else from0) ∨ (now - delay) < ts
    · rw [if_pos hrange] at hobj
      exact absurd hobj (by simp)
    · rw [if_neg hrange] at hobj
      push_neg at hrange
      obtain ⟨h1, h2⟩ := hrange
      cases hobj
      exact ⟨h1, h2⟩

/-- Witness for C6 at a concrete scan: the emitted job lies inside the
window. -/
theorem C6_scan_window_bound_witness :
    c6Job ∈ scan zscalerParseTimestamp c6Listing "logs/" 60 1760305500 1760305000 "" ∧
    (if (1760305000 : Int) = 0 then ((1760305500 : Int) - 60) - 60 else 1760305000) ≤
        c6Job.timestamp ∧
      c6Job.timestamp ≤ (1760305500 : Int) - 60 := by
  refine ⟨by decide, ?_⟩
  exact C6_scan_window_bound zscalerParseTimestamp c6Listing "logs/" 60 1760305500
    1760305000 "" c6Job (by decide)

/-- C3: the scanner hands the FULL object key to the descriptor, and
ZscalerFormat.ParseTimestamp splits that full key on underscores without
taking the basename first, so its first field still contains the
partition path and the parse fails; on the concrete scenario key the scan
therefore visits the right day partition but emits no FileJob at all,
while the same parse applied to the basename yields 1760305292 — the
timestamp extraction is not a function of the basename and the claimed
single FileJob is not produced. -/
theorem C3_zscaler_full_key_parse_fails :
    zscalerParseTimestamp c3Key = none ∧
    zscalerParseTimestamp (goPathBase c3Key) = some 1760305292 ∧
    generatePrefixes "logs/" ((1760305500 - 60) - 60) (1760305500 - 60) =
      ["logs/year=2025/month=10/day=12/"] ∧
    scan zscalerParseTimestamp c3Listing "logs/" 60 1760305500 0 "" = [] := by
  refine ⟨by decide, by decide, by decide, by decide⟩

/-- find? returns the same result on two permuted lists when the
predicate has at most one satisfier. -/
theorem find?_congr_perm_of_unique {α : Type _} (p : α → Bool) {l1 l2 : List α}
    (h : l1.Perm l2)
    (huniq : ∀ x ∈ l1, ∀ y ∈ l2, p x → p y → x = y) :
    l1.find? p = l2.find? p := by
  cases h1 : l1.find? p with
  | none =>
    cases h2 : l2.find? p with
    | none => rfl
    | some b =>
      have hb := List.find?_some h2
      have hbm := List.mem_of_find?_eq_some h2
      exact absurd hb (List.find?_eq_none.mp h1 b (h.mem_iff.mpr hbm))
  | some a =>
    have ha := List.find?_some h1
    have ham := List.mem_of_find?_eq_some h1
    cases h2 : l2.find? p with
    | none =>
      exact absurd ha (List.find?_eq_none.mp h2 a (h.mem_iff.mp ham))
    | some b =>
      have hb := List.find?_some h2
      have hbm := List.mem_of_find?_eq_some h2
      exact congrArg some (huniq a ham b hbm ha hb)

/-- C4 counterexample: the registry stores its descriptors in a Go map,
whose iteration order is unspecified, so DetectFormat is not a function of
the registered descriptors alone: two legitimate iteration orders of the
same registry return different descriptors for the same filename (the
custom format in one, cisco_umbrella in the other), refuting both the
registration-order iteration and the same-descriptor-on-two-runs parts of
the claim. -/
theorem C4_detect_depends_on_map_order :
    IsIterationOrder c4OrderA c4Registry ∧
    IsIterationOrder c4OrderB c4Registry ∧
    (detectFormat c4Registry c4OrderA "2024-01-15-10-30-0001.csv.gz" "").map
        LogFormat.name = some "custom_csv" ∧
    (detectFormat c4Registry c4OrderB "2024-01-15-10-30-0001.csv.gz" "").map
        LogFormat.name = some "cisco_umbrella" := by
  refine ⟨List.Perm.refl _, List.reverse_perm _, ?_, ?_⟩ <;> decide

/-- C4 (amended): DetectFormat iterates the descriptor map in an
unspecified order; under every iteration order it returns a descriptor
whose filename predicate matches whenever one exists, falls back to a
descriptor whose content predicate matches the sample when no filename
predicate matches, and otherwise returns the descriptor registered under
the name zscaler; the result is the same across iteration orders whenever
at most one descriptor matches by filename and at most one by content. -/
theorem C4_detect_semantics :
    ∀ (r : Registry) (order : List LogFormat) (filename sample : String),
      IsIterationOrder order r →
      ((∃ f ∈ registryValues r, f.detectFromFilename filename) →
        ∃ f, detectFormat r order filename sample = some f ∧
          f.detectFromFilename filename) ∧
      ((∀ f ∈ registryValues r, ¬ f.detectFromFilename filename) →
        (∃ f ∈ registryValues r, f.detectFromContent sample) →
        ∃ f, detectFormat r order filename sample = some f ∧
          f.detectFromContent sample) ∧
      ((∀ f ∈ registryValues r, ¬ f.detectFromFilename filename) →
        (∀ f ∈ registryValues r, ¬ f.detectFromContent sample) →
        detectFormat r order filename sample = registryGetFormat r "zscaler") ∧
      (∀ order2 : List LogFormat, IsIterationOrder order2 r →
        (∀ f ∈ registryValues r, ∀ g ∈ registryValues r,
          f.detectFromFilename filename → g.detectFromFilename filename → f = g) →
        (∀ f ∈ registryValues r, ∀ g ∈ registryValues r,
          f.detectFromContent sample → g.detectFromContent sample → f = g) →
        detectFormat r order filename sample =
          detectFormat r order2 filename sample) := by
  intro r order filename sample hord
  refine ⟨?_, ?_, ?_, ?_⟩
  · rintro ⟨f, hf, hmatch⟩
    cases hfind : order.find? (fun g => g.detectFromFilename filename) with
    | none =>
      exact absurd hmatch
        (List.find?_eq_none.mp hfind f (hord.mem_iff.mpr hf))
    | some g =>
      exact ⟨g, by simp [detectFormat, hfind], by simpa using List.find?_some hfind⟩
  · rintro hnone ⟨f, hf, hmatch⟩
    have hfind1 : order.find? (fun g => g.detectFromFilename filename) = none :=
      List.find?_eq_none.mpr (fun x hx => hnone x (hord.mem_iff.mp hx))
    cases hfind : order.find? (fun g => g.detectFromContent sample) with
    | none =>
      exact absurd hmatch
        (List.find?_eq_none.mp hfind f (hord.mem_iff.mpr hf))
    | some g =>
      exact ⟨g, by simp [detectFormat, hfind1, hfind], by simpa using List.find?_some hfind⟩
  · intro hnone1 hnone2
    have hfind1 : order.find? (fun g => g.detectFromFilename filename) = none :=
      List.find?_eq_none.mpr (fun x hx => hnone1 x (hord.mem_iff.mp hx))
    have hfind2 : order.find? (fun g => g.detectFromContent sample) = none :=
      List.find?_eq_none.mpr (fun x hx => hnone2 x (hord.mem_iff.mp hx))
    simp [detectFormat, hfind1, hfind2]
  · intro order2 hord2 huniq1 huniq2
    have hperm : order.Perm order2 := hord.trans hord2.symm
    have he1 : order.find? (fun g => g.detectFromFilename filename) =
        order2.find? (fun g => g.detectFromFilename filename) :=
      find?_congr_perm_of_unique _ hperm
        (fun x hx y hy px py =>
          huniq1 x (hord.mem_iff.mp hx) y (hord2.mem_iff.mp hy) px py)
    have he2 : order.find? (fun g => g.detectFromContent sample) =
        order2.find? (fun g => g.detectFromContent sample) :=
      find?_congr_perm_of_unique _ hperm
        (fun x hx y hy px py =>
          huniq2 x (hord.mem_iff.mp hx) y (hord2.mem_iff.mp hy) px py)
    simp [detectFormat, he1, he2]

/-- Witness for C4 (amended) at the concrete example registry: under
iteration order A, detection returns a descriptor whose filename
predicate matches the Cisco-shaped name. -/
theorem C4_detect_semantics_witness :
    ∃ f, detectFormat c4Registry c4OrderA "2024-01-15-10-30-0001.csv.gz" "" = some f ∧
      f.detectFromFilename "2024-01-15-10-30-0001.csv.gz" := by
  exact (C4_detect_semantics c4Registry c4OrderA "2024-01-15-10-30-0001.csv.gz" ""
      (List.Perm.refl _)).1
    ⟨genericFormat c4CustomCfg, by exact List.mem_cons_self _ _, by decide⟩

/-- C8 counterexample: the zscaler descriptor does not drop
whitespace-only lines — ProcessContent only drops byte-empty lines, and a
three-space line falls through the JSON check and is returned unchanged,
refuting the claim that every descriptor drops whitespace-only lines
unconditionally. -/
theorem C8_zscaler_keeps_whitespace_line :
    zscalerProcessContent (fun _ => true) "   " false = .keep "   " := by
  decide

/-- C8 (amended): cisco_umbrella drops the header (first) line and
empty or whitespace-only lines and otherwise returns the line unchanged;
a generic custom descriptor drops the first line exactly when
skip_header_lines is positive (later lines are treated identically
whatever the declared count), drops whitespace-only lines, and otherwise
returns the line unchanged; zscaler drops only byte-empty lines, returns
whitespace-only and other non-JSON-looking lines unchanged, and on lines
that look like a JSON object returns the line when it parses as JSON and
an error otherwise. -/
theorem C8_filter_line_semantics :
    ∀ (jsonValid : String → Bool) (cfg : FormatConfig) (line : String) (first : Bool),
      (ciscoProcessContent line true = .dropped) ∧
      ((goTrimSpace line).length = 0 → ciscoProcessContent line false = .dropped) ∧
      ((goTrimSpace line).length ≠ 0 → ciscoProcessContent line false = .keep line) ∧
      (0 < cfg.skipHeaderLines → genericProcessContent cfg line true = .dropped) ∧
      (¬ 0 < cfg.skipHeaderLines → genericProcessContent cfg line true =
        (if goTrimSpace line = "" then .dropped else .keep line)) ∧
      (genericProcessContent cfg line false =
        (if goTrimSpace line = "" then .dropped else .keep line)) ∧
      (line.length = 0 → zscalerProcessContent jsonValid line first = .dropped) ∧
      (line.length ≠ 0 →
        ¬ (goHasPrefixStr (goTrimSpace line) "\x7b" &&
            goHasSuffixStr (goTrimSpace line) "\x7d") = true →
        zscalerProcessContent jsonValid line first = .keep line) ∧
      (line.length ≠ 0 →
        (goHasPrefixStr (goTrimSpace line) "\x7b" &&
            goHasSuffixStr (goTrimSpace line) "\x7d") = true →
        zscalerProcessContent jsonValid line first =
          (if jsonValid line then .keep line else .err)) := by
  intro jsonValid cfg line first
  refine ⟨rfl, ?_, ?_, ?_, ?_, ?_, ?_, ?_, ?_⟩
  · intro h
    simp [ciscoProcessContent, h]
  · intro h
    simp [ciscoProcessContent, h]
  · intro h
    simp [genericProcessContent, h]
  · intro h
    simp only [genericProcessContent, Bool.true_and, decide_eq_true_eq]
    rw [if_neg h]
  · simp [genericProcessContent]
  · intro h
    simp [zscalerProcessContent, h]
  · intro h hjson
    simp only [zscalerProcessContent]
    rw [if_neg h, if_neg (by simpa using hjson)]
  · intro h hjson
    simp only [zscalerProcessContent]
    rw [if_neg h, if_pos hjson]

/-- Witness for C8 (amended) at concrete lines: a cisco data line passes
unchanged, a generic second line is kept whatever the header count, and
zscaler keeps a whitespace-only line. -/
theorem C8_filter_line_semantics_witness :
    ciscoProcessContent "A" false = .keep "A" ∧
    genericProcessContent c8Cfg "B" false =
      (if goTrimSpace "B" = "" then .dropped else .keep "B") ∧
    zscalerProcessContent (fun _ => false) "   " false = .keep "   " := by
  refine ⟨?_, ?_, ?_⟩
  · exact (C8_filter_line_semantics (fun _ => false) c8Cfg "A" false).2.2.1
      (by decide)
  · exact (C8_filter_line_semantics (fun _ => false) c8Cfg "B" false).2.2.2.2.2.1
  · exact (C8_filter_line_semantics (fun _ => false) c8Cfg "   "
      false).2.2.2.2.2.2.2.1 (by decide) (by decide)

end Streamer
